import Mathlib

/-!
Verification development for the semantic response cache of the
Chatbot-with-Lama repository.

The repository ships several near-duplicate versions of one program:

* `database.py` + `chat.py` + `app.py` : the modular version; the Durable
  Store is the sqlite `queries` table, the Volatile Vector Index is a faiss
  `IndexFlatIP(384)`, the Response Cache Map is a python dict.
* `all-code.py` : a monolithic version with the same two-tier lookup.
* `chatbot.py` : a variant with a single-threshold lookup that also writes
  the store on every hit.

The shallow embedding below translates these sources.  Embedding vectors
are lists of rationals, similarity is the inner product (faiss
`IndexFlatIP` / `np.dot`).  The sqlite table is a list of records in
`ORDER BY id` order, which is insertion order (the `id` column is
`AUTOINCREMENT`).  The faiss index is the list of added vectors, handles
are positions.  The python dict `cache` is an association list with
update-or-append assignment semantics.  Fallible collaborators (the
embedding provider, the sqlite connection, the Ollama HTTP call) are
modelled by passing their outcome as an `Except` / sum-typed argument;
python `raise` becomes returning the `.error` case.
-/

namespace ChatbotLama

/-- An embedding vector (`numpy` float array in the source, dimension 384;
the dimension plays no role in the control flow). -/
abbrev Vec := List ℚ

/-- Inner product of two vectors: `np.dot(query_vector, db_embedding.T)[0][0]`
in `chat.py`, and the similarity computed by `faiss.IndexFlatIP.search`. -/
def dot (v w : Vec) : ℚ := (List.zipWith (fun a b => a * b) v w).sum

/-- One row of the sqlite `queries` table (`database.py`, `initialize_db`):
`query TEXT UNIQUE, embedding BLOB, response TEXT, usage_count INTEGER
DEFAULT 1`. -/
structure QueryRecord where
  query : String
  embedding : Vec
  response : String
  usage_count : ℕ
deriving DecidableEq, Repr

/-- The Durable Store: the `queries` table as the list of its rows in
`ORDER BY id` order, i.e. original insertion order (`get_all_queries` in
`database.py` returns exactly this ordering). -/
abbrev Store := List QueryRecord

/-- The Volatile Vector Index: a faiss `IndexFlatIP` as the list of vectors
added to it; `ntotal` is the length, a handle is a position. -/
abbrev Index := List Vec

/-- The Response Cache Map: the python dict `cache` mapping handles to
response texts, as an association list. -/
abbrev Cache := List (ℕ × String)

/-- `cache.get(h)`: the value bound to key `h`, or `None` when absent. -/
def cacheGet (c : Cache) (h : ℕ) : Option String :=
  (c.find? (fun p => p.1 == h)).map Prod.snd

/-- `cache[h] = r`: python dict assignment — overwrite the binding when the
key is present, append a new binding otherwise. -/
def cacheSet (c : Cache) (h : ℕ) (r : String) : Cache :=
  if c.any (fun p => p.1 == h) then
    c.map (fun p => if p.1 == h then (h, r) else p)
  else c ++ [(h, r)]

/-- `insert_or_update_query` of `database.py` (identical SQL in
`all-code.py`):

`INSERT INTO queries (query, embedding, response) VALUES (?, ?, ?)
 ON CONFLICT(query) DO UPDATE SET response = excluded.response,
 usage_count = usage_count + 1`

followed by `return conn.total_changes > 0`.  On a fresh insert the row
gets the column default `usage_count = 1`.  On conflict the row keeps its
`query` and `embedding`, gets the new `response`, and `usage_count` grows
by one.  Either way the statement affects exactly one row, so
`conn.total_changes > 0` holds and the function returns `True` in both
branches. -/
def insert_or_update_query (q : String) (emb : Vec) (resp : String)
    (store : Store) : Bool × Store :=
  if store.any (fun r => r.query == q) then
    (true, store.map (fun r =>
      if r.query == q then
        { r with response := resp, usage_count := r.usage_count + 1 }
      else r))
  else
    (true, store ++ [⟨q, emb, resp, 1⟩])

/-- Descending-similarity ordering on `(handle, similarity)` pairs used by
the faiss search result. -/
def searchRel (a b : ℕ × ℚ) : Prop := b.2 ≤ a.2

instance : DecidableRel searchRel :=
  fun a b => inferInstanceAs (Decidable (b.2 ≤ a.2))

instance : IsTotal (ℕ × ℚ) searchRel := ⟨fun a b => le_total b.2 a.2⟩

instance : IsTrans (ℕ × ℚ) searchRel := ⟨fun _ _ _ h1 h2 => le_trans h2 h1⟩

/-- Pair every stored vector with its handle (its position in the index),
starting from handle `i`. -/
def withHandles (i : ℕ) : Index → List (ℕ × Vec)
  | [] => []
  | w :: ws => (i, w) :: withHandles (i + 1) ws

/-- `index.search(v, k)` on a faiss `IndexFlatIP`: exact inner products
against every stored vector, the `k` best returned in descending
similarity order as `(handle, similarity)` pairs (a stable selection:
among equal similarities the lower handle comes first).  When fewer than
`k` vectors are stored, faiss pads the result with id `-1` and similarity
`-FLT_MAX`; those pads can never pass a positive similarity threshold, so
the model simply returns the existing entries only. -/
def search (idx : Index) (v : Vec) (k : ℕ) : List (ℕ × ℚ) :=
  (List.insertionSort searchRel
    ((withHandles 0 idx).map (fun p => (p.1, dot v p.2)))).take k

/-- The fast-path candidate subset of `get_cached_response` (`chat.py`):
the search results kept by the strict comparison
`similarities[0][i] > 0.75`. -/
def fastKept (qv : Vec) (idx : Index) : List (ℕ × ℚ) :=
  (search idx qv 5).filter (fun p => (3 : ℚ)/4 < p.2)

/-- The `valid_responses` list of `get_cached_response` (`chat.py`): each
kept handle resolved through the Response Cache Map by `cache.get`, which
yields `None` for a handle absent from the map. -/
def fastValid (qv : Vec) (idx : Index) (cache : Cache) : List (Option String) :=
  (fastKept qv idx).map (fun p => cacheGet cache p.1)

/-- Key list of `collections.Counter(l)`: the distinct elements of `l` in
first-encounter order (python dicts preserve insertion order). -/
def counterKeysAux {α : Type} [DecidableEq α] (acc : List α) :
    List α → List α
  | [] => acc
  | x :: xs => counterKeysAux (if x ∈ acc then acc else acc ++ [x]) xs

/-- Distinct elements of `l` in first-encounter order. -/
def counterKeys {α : Type} [DecidableEq α] (l : List α) : List α :=
  counterKeysAux [] l

/-- Multiplicity of `x` in `l`: the counter value of the key `x`. -/
def countOf {α : Type} [DecidableEq α] (l : List α) (x : α) : ℕ := l.count x

/-- The key with the largest multiplicity in `l`, scanning the candidate
keys left to right and replacing the current best only on a strictly
larger count — so among equal counts the earliest candidate wins. -/
def bestKey {α : Type} [DecidableEq α] (l : List α) (b : α) :
    List α → α
  | [] => b
  | k :: ks =>
    if countOf l b < countOf l k then bestKey l k ks else bestKey l b ks

/-- `Counter(l).most_common(1)[0][0]` for nonempty `l` (`none` for empty
`l`): the most frequent element of `l`; `heapq.nlargest` is stable, so
among equal counts the key first inserted into the counter — the element
first encountered in `l` — is returned. -/
def mostCommon1 {α : Type} [DecidableEq α] (l : List α) : Option α :=
  match counterKeys l with
  | [] => none
  | k :: ks => some (bestKey l k ks)

/-- The `0.6` threshold test of the fallback scan in `chat.py`
(`if similarity > 0.6`). -/
def hitLow (qv : Vec) (r : QueryRecord) : Bool :=
  decide ((6 : ℚ)/10 < dot qv r.embedding)

/-- The fallback loop of `get_cached_response` (`chat.py`): scan the store
rows in order; on the first row whose similarity strictly exceeds `0.6`,
add its embedding to the index, bind the fresh handle
(`index.ntotal - 1` after the add, i.e. the pre-add length) to its
response in the cache map, and return the response. -/
def scanStore (qv : Vec) (idx : Index) (cache : Cache) :
    Store → Option String × Index × Cache
  | [] => (none, idx, cache)
  | q :: rest =>
    if (6 : ℚ)/10 < dot qv q.embedding then
      (some q.response, idx ++ [q.embedding],
        cacheSet cache idx.length q.response)
    else scanStore qv idx cache rest

/-- `get_cached_response(query, index, cache)` of `chat.py`.  The outcome
of `get_embedding(query)` is passed as `embedRes` and the outcome of the
`get_all_queries()` call as `storeRes`; a python exception from either is
the `.error` case, and the `try ... except Exception as e: raise e`
wrapper re-raises it, so the whole function returns `.error`.  The store
connection is only opened on the slow path, so `storeRes` is only
consumed there.  The function performs no store write.  With
`index.ntotal > 0` it searches the index with `k = 5`, keeps results with
similarity strictly above `0.75`, and if any survive returns the counter
vote over their `cache.get` resolutions (a python value that is itself
`None` when every kept handle was absent from the map).  Otherwise it
falls back to `scanStore`. -/
def get_cached_response (embedRes : Except String Vec)
    (storeRes : Except String Store) (idx : Index) (cache : Cache) :
    Except String (Option String × Index × Cache) :=
  match embedRes with
  | .error e => .error e
  | .ok qv =>
    if 0 < idx.length ∧ fastValid qv idx cache ≠ [] then
      .ok ((mostCommon1 (fastValid qv idx cache)).join, idx, cache)
    else
      match storeRes with
      | .error e => .error e
      | .ok store => .ok (scanStore qv idx cache store)

/-- `store_query(query, response, index, cache)` of `chat.py` and
`store_query_in_db(query, embedding, response)` of `all-code.py`
(identical logic): upsert into the Durable Store, and when the upsert
reports a change, add the embedding to the index and bind the fresh
handle `index.ntotal - 1` to the response in the cache map.  The
embedding computed by `get_embedding(query)` is passed in as `emb`. -/
def store_query (q : String) (emb : Vec) (resp : String)
    (store : Store) (idx : Index) (cache : Cache) :
    Store × Index × Cache :=
  let r := insert_or_update_query q emb resp store
  if r.1 then (r.2, idx ++ [emb], cacheSet cache idx.length resp)
  else (r.2, idx, cache)

/-- `initialize_index_and_cache()` of `chat.py` (and the equivalent paired
loops of `initialize_session_state` in `all-code.py`): replay
`get_all_queries()` in order; `for idx, q in enumerate(queries):
index.add(embedding); cache[idx] = q[response]`.  The running enumeration
counter `i` always equals the current index length. -/
def rebuildAux (i : ℕ) (acc : Index × Cache) :
    Store → Index × Cache
  | [] => acc
  | q :: rest =>
      rebuildAux (i + 1)
        (acc.1 ++ [q.embedding], cacheSet acc.2 i q.response) rest

/-- Startup rebuild of the volatile structures from the Durable Store. -/
def rebuild_index_and_cache (store : Store) : Index × Cache :=
  rebuildAux 0 ([], []) store

/-- `get_cached_response(query)` of `all-code.py`.  Its body is the same
two-tier algorithm as the `chat.py` version, with the same literals
(`k=5`, strict `> 0.75` fast-path filter, `Counter(...).most_common(1)`,
fallback scan with strict `> 0.60` first match and the same index/cache
self-healing), but the surrounding handler is
`except Exception as e: st.error(...); return None` — every exception is
reported to the UI and then converted into the miss value `None`, with
the volatile structures left as they were (state mutations happen only at
the successful returns). -/
def get_cached_response_allcode (embedRes : Except String Vec)
    (storeRes : Except String Store) (idx : Index) (cache : Cache) :
    Option String × Index × Cache :=
  match get_cached_response embedRes storeRes idx cache with
  | .ok r => r
  | .error _ => (none, idx, cache)

/-- `store_query(query, embedding, response)` of `chatbot.py`: the upsert
variant whose `ON CONFLICT(query) DO UPDATE` only increments
`usage_count` (it does not replace the response). -/
def store_query_chatbot (q : String) (emb : Vec) (resp : String)
    (store : Store) : Store :=
  if store.any (fun r => r.query == q) then
    store.map (fun r =>
      if r.query == q then { r with usage_count := r.usage_count + 1 }
      else r)
  else store ++ [⟨q, emb, resp, 1⟩]

/-- `get_cached_response(query)` of `chatbot.py`: the single-threshold
variant.  With an empty index it returns `None`; otherwise it searches
with `k = 5`, keeps results with similarity strictly above `0.60`,
resolves them through the cache map, and if any survive it takes the
counter vote, calls `store_query(query, query_vector, most_common)` — a
Durable Store write — and returns the vote.  The surrounding
`except ... return None` converts any exception into a miss.  (When the
vote winner is the python value `None`, i.e. every kept handle was absent
from the map, the source would insert a NULL-response row; that corner,
impossible while the index and map grow in lockstep, is modelled as a
plain miss.) -/
def get_cached_response_chatbot (embedRes : Except String Vec)
    (q : String) (store : Store) (idx : Index) (cache : Cache) :
    Option String × Store :=
  match embedRes with
  | .error _ => (none, store)
  | .ok qv =>
    if idx.length = 0 then (none, store)
    else
      let valid :=
        ((search idx qv 5).filter (fun p => (6 : ℚ)/10 < p.2)).map
          (fun p => cacheGet cache p.1)
      if valid = [] then (none, store)
      else
        match (mostCommon1 valid).join with
        | some mc => (some mc, store_query_chatbot q qv mc store)
        | none => (none, store)

/-- Outcome of the HTTP POST to the Ollama generation endpoint: either a
2xx response whose JSON carries the generated text, or a
`requests.RequestException` (connection error, timeout, or the non-2xx
raised by `raise_for_status`). -/
inductive GenOutcome where
  | ok (text : String)
  | requestError (msg : String)
deriving DecidableEq, Repr

/-- `ollama_generate(prompt, history, temperature)` of `all-code.py`: on
success it returns the generated text; on a `RequestException` it shows a
UI error and returns the literal fallback string — a plain return value
indistinguishable from a generated answer for the caller. -/
def ollama_generate_allcode : GenOutcome → String
  | .ok t => t
  | .requestError _ => "I\x27m having trouble connecting to the AI model."

/-- The cache-miss branch of `main_chat_interface` in `all-code.py`:
`response = ollama_generate(prompt, history, temperature);
embedding = get_embedding(prompt);
store_query_in_db(prompt, embedding, response)` — the result of
`ollama_generate` is stored unconditionally, with no success check. -/
def miss_path_allcode (prompt : String) (qv : Vec) (gen : GenOutcome)
    (store : Store) (idx : Index) (cache : Cache) :
    String × Store × Index × Cache :=
  let response := ollama_generate_allcode gen
  (response, store_query prompt qv response store idx cache)

/-- Lockstep consistency of the volatile structures: the Response Cache
Map binds exactly the handles `0 .. index.ntotal - 1`, in order. -/
def lockstep (idx : Index) (cache : Cache) : Prop :=
  cache.map Prod.fst = List.range idx.length

/-! ### Helper lemmas about the Durable Store upsert -/

lemma map_upsert_id (q : String) (f : QueryRecord → QueryRecord)
    (s : Store) (hs : ∀ r ∈ s, r.query ≠ q) :
    s.map (fun r => if r.query == q then f r else r) = s := by
  induction s with
  | nil => rfl
  | cons a t ih =>
    have ha : ¬(a.query == q) = true := by
      simp only [beq_iff_eq]
      exact hs a (by simp)
    simp only [List.map_cons, if_neg ha]
    rw [ih (fun r hr => hs r (by simp [hr]))]

lemma iou_absent (q : String) (emb : Vec) (resp : String) (store : Store)
    (h : ∀ r ∈ store, r.query ≠ q) :
    insert_or_update_query q emb resp store =
      (true, store ++ [⟨q, emb, resp, 1⟩]) := by
  have hany : store.any (fun r => r.query == q) = false := by
    simp only [List.any_eq_false, beq_iff_eq]
    exact h
  simp [insert_or_update_query, hany]

lemma iou_present (q : String) (emb : Vec) (resp : String)
    (s1 s2 : Store) (r0 : QueryRecord) (hq : r0.query = q)
    (hothers : ∀ r ∈ s1 ++ s2, r.query ≠ q) :
    insert_or_update_query q emb resp (s1 ++ r0 :: s2) =
      (true, s1 ++
        { r0 with response := resp, usage_count := r0.usage_count + 1 } :: s2) := by
  have hany : (s1 ++ r0 :: s2).any (fun r => r.query == q) = true := by
    simp only [List.any_eq_true, beq_iff_eq]
    exact ⟨r0, by simp, hq⟩
  have h1 : ∀ r ∈ s1, r.query ≠ q := fun r hr => hothers r (by simp [hr])
  have h2 : ∀ r ∈ s2, r.query ≠ q := fun r hr => hothers r (by simp [hr])
  simp only [insert_or_update_query, hany, if_true, List.map_append,
    List.map_cons]
  rw [map_upsert_id q _ s1 h1, map_upsert_id q _ s2 h2, if_pos (by simp [hq])]

/-! ### Helper lemmas about the Response Cache Map -/

lemma cacheSet_fresh (c : Cache) (h : ℕ) (r : String)
    (hf : ∀ p ∈ c, p.1 ≠ h) :
    cacheSet c h r = c ++ [(h, r)] := by
  have hany : c.any (fun p => p.1 == h) = false := by
    simp only [List.any_eq_false, beq_iff_eq]
    exact hf
  simp [cacheSet, hany]

lemma lockstep_keys_lt (idx : Index) (cache : Cache)
    (hl : lockstep idx cache) : ∀ p ∈ cache, p.1 < idx.length := by
  intro p hp
  have hmem : p.1 ∈ cache.map Prod.fst := List.mem_map_of_mem _ hp
  rw [hl] at hmem
  exact List.mem_range.mp hmem

lemma lockstep_append (idx : Index) (cache : Cache) (v : Vec) (r : String)
    (hl : lockstep idx cache) :
    lockstep (idx ++ [v]) (cacheSet cache idx.length r) := by
  have hf : ∀ p ∈ cache, p.1 ≠ idx.length :=
    fun p hp => Nat.ne_of_lt (lockstep_keys_lt idx cache hl p hp)
  rw [cacheSet_fresh cache idx.length r hf]
  unfold lockstep at *
  simp [List.range_succ, hl]

lemma cacheGet_append_new (c : Cache) (n : ℕ) (r : String)
    (hf : ∀ p ∈ c, p.1 ≠ n) :
    cacheGet (c ++ [(n, r)]) n = some r := by
  have hnone : c.find? (fun p => p.1 == n) = none := by
    rw [List.find?_eq_none]
    intro p hp
    simp [hf p hp]
  unfold cacheGet
  rw [List.find?_append, hnone]
  simp

lemma cacheGet_append_old (c : Cache) (n h : ℕ) (r : String)
    (hmem : ∃ p ∈ c, p.1 = h) :
    cacheGet (c ++ [(n, r)]) h = cacheGet c h := by
  obtain ⟨p, hp, hph⟩ := hmem
  have hsome : (c.find? (fun p => p.1 == h)).isSome := by
    rw [List.find?_isSome]
    exact ⟨p, hp, by simp [hph]⟩
  unfold cacheGet
  rw [List.find?_append]
  cases hf : c.find? (fun p => p.1 == h) with
  | none => rw [hf] at hsome; simp at hsome
  | some v => simp

/-! ### Characterization of the fallback scan -/

lemma scanStore_eq_find (qv : Vec) (idx : Index) (cache : Cache)
    (store : Store) :
    scanStore qv idx cache store =
      match store.find? (hitLow qv) with
      | some r => (some r.response, idx ++ [r.embedding],
          cacheSet cache idx.length r.response)
      | none => (none, idx, cache) := by
  induction store with
  | nil => rfl
  | cons a t ih =>
    by_cases hc : (6 : ℚ)/10 < dot qv a.embedding
    · have hb : hitLow qv a = true := by simp [hitLow, hc]
      simp [scanStore, hc, List.find?_cons_of_pos _ hb]
    · have hb : ¬ hitLow qv a = true := by simp [hitLow, hc]
      simp only [scanStore, if_neg hc,
        List.find?_cons_of_neg _ (by simpa using hb)]
      exact ih

/-! ### Reduction lemmas for the two-tier lookup -/

lemma get_cached_fast (qv : Vec) (storeRes : Except String Store)
    (idx : Index) (cache : Cache) (h1 : 0 < idx.length)
    (h2 : fastValid qv idx cache ≠ []) :
    get_cached_response (.ok qv) storeRes idx cache =
      .ok ((mostCommon1 (fastValid qv idx cache)).join, idx, cache) := by
  simp only [get_cached_response]
  rw [if_pos ⟨h1, h2⟩]

lemma get_cached_slow (qv : Vec) (idx : Index) (cache : Cache)
    (store : Store)
    (hmiss : ¬(0 < idx.length ∧ fastValid qv idx cache ≠ [])) :
    get_cached_response (.ok qv) (.ok store) idx cache =
      .ok (scanStore qv idx cache store) := by
  simp only [get_cached_response]
  rw [if_neg hmiss]

/-! ### Helper lemmas about the counter vote -/

lemma counterKeysAux_extend {α : Type} [DecidableEq α] (l : List α) :
    ∀ acc : List α, ∃ t, counterKeysAux acc l = acc ++ t := by
  induction l with
  | nil => intro acc; exact ⟨[], by simp [counterKeysAux]⟩
  | cons x xs ih =>
    intro acc
    unfold counterKeysAux
    by_cases hx : x ∈ acc
    · rw [if_pos hx]; exact ih acc
    · rw [if_neg hx]
      obtain ⟨t, ht⟩ := ih (acc ++ [x])
      exact ⟨x :: t, by simp [ht]⟩

lemma mem_counterKeysAux {α : Type} [DecidableEq α] (l : List α) :
    ∀ (acc : List α) (y : α),
      y ∈ counterKeysAux acc l ↔ y ∈ acc ∨ y ∈ l := by
  induction l with
  | nil => intro acc y; simp [counterKeysAux]
  | cons x xs ih =>
    intro acc y
    unfold counterKeysAux
    by_cases hx : x ∈ acc
    · rw [if_pos hx, ih]
      constructor
      · rintro (h | h)
        · exact Or.inl h
        · exact Or.inr (by simp [h])
      · rintro (h | h)
        · exact Or.inl h
        · rcases List.mem_cons.mp h with rfl | h'
          · exact Or.inl hx
          · exact Or.inr h'
    · rw [if_neg hx, ih]
      simp only [List.mem_append, List.mem_singleton, List.mem_cons]
      tauto

lemma mem_counterKeys {α : Type} [DecidableEq α] (l : List α) (y : α) :
    y ∈ counterKeys l ↔ y ∈ l := by
  unfold counterKeys
  rw [mem_counterKeysAux]
  simp

lemma counterKeys_ne_nil {α : Type} [DecidableEq α] (l : List α)
    (hl : l ≠ []) : counterKeys l ≠ [] := by
  cases l with
  | nil => exact absurd rfl hl
  | cons x xs =>
    intro h
    have hx : x ∈ counterKeys (x :: xs) :=
      (mem_counterKeys (x :: xs) x).mpr (by simp)
    rw [h] at hx
    exact absurd hx (List.not_mem_nil x)

lemma count_le_bestKey {α : Type} [DecidableEq α] (l : List α) :
    ∀ (ks : List α) (b : α), countOf l b ≤ countOf l (bestKey l b ks) := by
  intro ks
  induction ks with
  | nil => intro b; simp [bestKey]
  | cons k ks ih =>
    intro b
    unfold bestKey
    by_cases h : countOf l b < countOf l k
    · rw [if_pos h]; exact le_trans (le_of_lt h) (ih k)
    · rw [if_neg h]; exact ih b

lemma count_mem_le_bestKey {α : Type} [DecidableEq α] (l : List α) :
    ∀ (ks : List α) (b k' : α), k' ∈ ks →
      countOf l k' ≤ countOf l (bestKey l b ks) := by
  intro ks
  induction ks with
  | nil => intro b k' h; simp at h
  | cons k ks ih =>
    intro b k' h
    unfold bestKey
    rcases List.mem_cons.mp h with heq | h'
    · rw [heq]
      by_cases hlt : countOf l b < countOf l k
      · rw [if_pos hlt]; exact count_le_bestKey l ks k
      · rw [if_neg hlt]
        exact le_trans (le_of_not_lt hlt) (count_le_bestKey l ks b)
    · by_cases hlt : countOf l b < countOf l k
      · rw [if_pos hlt]; exact ih k k' h'
      · rw [if_neg hlt]; exact ih b k' h'

lemma bestKey_mem {α : Type} [DecidableEq α] (l : List α) :
    ∀ (ks : List α) (b : α), bestKey l b ks = b ∨ bestKey l b ks ∈ ks := by
  intro ks
  induction ks with
  | nil => intro b; exact Or.inl rfl
  | cons k ks ih =>
    intro b
    unfold bestKey
    by_cases h : countOf l b < countOf l k
    · rw [if_pos h]
      rcases ih k with h' | h'
      · exact Or.inr (by simp [h'])
      · exact Or.inr (by simp [h'])
    · rw [if_neg h]
      rcases ih b with h' | h'
      · exact Or.inl h'
      · exact Or.inr (by simp [h'])

lemma bestKey_first_max {α : Type} [DecidableEq α] (l : List α) :
    ∀ (ks : List α) (b : α), ∃ K1 K2,
      b :: ks = K1 ++ bestKey l b ks :: K2 ∧
      ∀ r ∈ K1, countOf l r < countOf l (bestKey l b ks) := by
  intro ks
  induction ks with
  | nil => intro b; exact ⟨[], [], by simp [bestKey], by simp⟩
  | cons k ks ih =>
    intro b
    unfold bestKey
    by_cases h : countOf l b < countOf l k
    · rw [if_pos h]
      obtain ⟨K1, K2, hdec, hlt⟩ := ih k
      refine ⟨b :: K1, K2, ?_, ?_⟩
      · rw [List.cons_append, ← hdec]
      · intro r hr
        rcases List.mem_cons.mp hr with rfl | hr'
        · exact lt_of_lt_of_le h (count_le_bestKey l ks k)
        · exact hlt r hr'
    · rw [if_neg h]
      obtain ⟨K1, K2, hdec, hlt⟩ := ih b
      cases K1 with
      | nil =>
        have hb : b = bestKey l b ks ∧ ks = K2 := by
          rw [List.nil_append] at hdec
          exact ⟨by injection hdec, by injection hdec⟩
        refine ⟨[], k :: ks, ?_, by simp⟩
        rw [List.nil_append, ← hb.1]
      | cons b' K1' =>
        have hb : b' = b ∧ ks = K1' ++ bestKey l b ks :: K2 := by
          rw [List.cons_append] at hdec
          exact ⟨by injection hdec with h1 _; exact h1.symm,
                 by injection hdec⟩
        have hbK1 : countOf l b < countOf l (bestKey l b ks) := by
          have := hlt b' (by simp)
          rwa [hb.1] at this
        refine ⟨b :: k :: K1', K2, ?_, ?_⟩
        · rw [List.cons_append, List.cons_append, ← hb.2]
        · intro r hr
          rcases List.mem_cons.mp hr with rfl | hr'
          · exact hbK1
          · rcases List.mem_cons.mp hr' with rfl | hr''
            · exact lt_of_le_of_lt (le_of_not_lt h) hbK1
            · have := hlt r (by simp [hr''])
              exact this

lemma iou_fst (q : String) (emb : Vec) (resp : String) (store : Store) :
    (insert_or_update_query q emb resp store).1 = true := by
  unfold insert_or_update_query
  by_cases h : store.any (fun r => r.query == q) = true
  · rw [if_pos h]
  · rw [if_neg h]

lemma store_query_eq (q : String) (emb : Vec) (resp : String)
    (store : Store) (idx : Index) (cache : Cache) :
    store_query q emb resp store idx cache =
      ((insert_or_update_query q emb resp store).2, idx ++ [emb],
        cacheSet cache idx.length resp) := by
  simp only [store_query, iou_fst, if_true]

lemma store_query_lockstep (q : String) (emb : Vec) (resp : String)
    (store : Store) (idx : Index) (cache : Cache)
    (hl : lockstep idx cache) :
    lockstep (store_query q emb resp store idx cache).2.1
      (store_query q emb resp store idx cache).2.2 := by
  rw [store_query_eq]
  exact lockstep_append idx cache emb resp hl

lemma scanStore_lockstep (qv : Vec) (idx : Index) (cache : Cache)
    (hl : lockstep idx cache) :
    ∀ store : Store, lockstep (scanStore qv idx cache store).2.1
      (scanStore qv idx cache store).2.2 := by
  intro store
  induction store with
  | nil => exact hl
  | cons a t ih =>
    unfold scanStore
    by_cases hc : (6 : ℚ)/10 < dot qv a.embedding
    · rw [if_pos hc]
      exact lockstep_append idx cache a.embedding a.response hl
    · rw [if_neg hc]
      exact ih

lemma rebuildAux_lockstep (store : Store) :
    ∀ (acc : Index × Cache) (i : ℕ), lockstep acc.1 acc.2 →
      i = acc.1.length →
      lockstep (rebuildAux i acc store).1 (rebuildAux i acc store).2 := by
  induction store with
  | nil => intro acc i h _; exact h
  | cons a t ih =>
    intro acc i h hi
    unfold rebuildAux
    apply ih
    · subst hi
      exact lockstep_append acc.1 acc.2 a.embedding a.response h
    · subst hi
      simp

lemma mostCommon1_spec {α : Type} [DecidableEq α] (l : List α)
    (hl : l ≠ []) :
    ∃ e, mostCommon1 l = some e ∧ e ∈ l ∧
      (∀ r ∈ l, countOf l r ≤ countOf l e) ∧
      ∃ K1 K2, counterKeys l = K1 ++ e :: K2 ∧
        ∀ r ∈ K1, countOf l r < countOf l e := by
  cases hck : counterKeys l with
  | nil => exact absurd hck (counterKeys_ne_nil l hl)
  | cons k ks =>
    refine ⟨bestKey l k ks, ?_, ?_, ?_, ?_⟩
    · unfold mostCommon1
      rw [hck]
    · have hmem : bestKey l k ks ∈ counterKeys l := by
        rw [hck]
        rcases bestKey_mem l ks k with h' | h'
        · simp [h']
        · simp [h']
      exact (mem_counterKeys l _).mp hmem
    · intro r hr
      have hrk : r ∈ counterKeys l := (mem_counterKeys l r).mpr hr
      rw [hck] at hrk
      rcases List.mem_cons.mp hrk with rfl | h'
      · exact count_le_bestKey l ks r
      · exact count_mem_le_bestKey l ks k r h'
    · obtain ⟨K1, K2, hdec, hlt⟩ := bestKey_first_max l ks k
      exact ⟨K1, K2, hdec, hlt⟩

/-! ### Claim theorems -/

/-- Claim C1, counterexample.  The claim states that `upsert` on an
existing record returns `false`.  The source returns
`conn.total_changes > 0`, and a conflict-update also counts as a change,
so on the store already holding a record for query `"q"` the call returns
`true` (while indeed replacing the response, incrementing the usage count
and leaving the embedding untouched). -/
theorem c1_counterexample :
    insert_or_update_query "q" [1] "r2" [⟨"q", [1], "r1", 1⟩] =
      (true, [⟨"q", [1], "r2", 2⟩]) := by
  decide

/-- Claim C1 (amended): `upsert(query, embedding, response)` on a store
with no record for `query` inserts a record with `usage_count = 1` and
returns `true`; on a store holding a record for `query` it replaces that
record response, increments its `usage_count` by exactly one, leaves its
stored embedding (and every other record) untouched — but returns `true`
as well, because the source returns `conn.total_changes > 0`, which is
positive after a conflict-update too. -/
theorem c1_upsert_amended (q : String) (emb : Vec) (resp : String)
    (s1 s2 : Store) (r0 : QueryRecord) (hq : r0.query = q)
    (hu : ∀ r ∈ s1 ++ s2, r.query ≠ q) :
    insert_or_update_query q emb resp (s1 ++ r0 :: s2) =
      (true,
        s1 ++ { r0 with response := resp, usage_count := r0.usage_count + 1 } :: s2) ∧
    ∀ (store : Store) (emb' : Vec) (resp' : String),
      (∀ r ∈ store, r.query ≠ q) →
      insert_or_update_query q emb' resp' store =
        (true, store ++ [⟨q, emb', resp', 1⟩]) :=
  ⟨iou_present q emb resp s1 s2 r0 hq hu,
   fun store emb' resp' h => iou_absent q emb' resp' store h⟩

/-- Claim C1 witness: the amended statement at concrete inputs — a
conflict-update on a one-record store, and a fresh insert. -/
theorem c1_upsert_amended_witness :
    insert_or_update_query "a" [2] "r2" [⟨"a", [1], "r1", 3⟩] =
      (true, [⟨"a", [1], "r2", 4⟩]) ∧
    insert_or_update_query "a" [5] "r5" [⟨"b", [7], "r7", 2⟩] =
      (true, [⟨"b", [7], "r7", 2⟩, ⟨"a", [5], "r5", 1⟩]) := by
  have h := c1_upsert_amended "a" [2] "r2" [] [] ⟨"a", [1], "r1", 3⟩ rfl
    (by simp)
  constructor
  · simpa using h.1
  · simpa using h.2 [⟨"b", [7], "r7", 2⟩] [5] "r5" (by decide)

/-- Claim C2: in the all-code.py version the claim fails.  When the
generation call fails, `ollama_generate` returns the fallback error text
instead of raising, and the cache-miss branch of `main_chat_interface`
passes that text to `store_query_in_db` unconditionally: the failure text
is inserted into the Durable Store, the Volatile Vector Index and the
Response Cache Map.  (The chat.py/app.py version re-raises and the
chatbot.py version checks a success flag, so neither of them records;
all-code.py is the slip.)  This theorem evaluates the failing input. -/
theorem c2_failure_text_cached :
    miss_path_allcode "hi" [1] (.requestError "connection refused") [] [] [] =
      ("I\x27m having trouble connecting to the AI model.",
       [⟨"hi", [1], "I\x27m having trouble connecting to the AI model.", 1⟩],
       [[1]],
       [(0, "I\x27m having trouble connecting to the AI model.")]) := by
  decide

/-- Claim C3, counterexample.  The claim quantifies over every lookup
served by the fast path and says no Durable Store access happens there;
but in the chatbot.py version `get_cached_response` calls
`store_query(query, query_vector, most_common)` — a store upsert — on
every index-served hit.  Here a hit with similarity 0.9 (above `T_high`)
inserts a brand-new record into the store during the lookup. -/
theorem c3_counterexample :
    get_cached_response_chatbot (.ok [1]) "new question" []
        [[(9 : ℚ)/10]] [(0, "A")] =
      (some "A", [⟨"new question", [1], "A", 1⟩]) := by
  norm_num [get_cached_response_chatbot, search, withHandles, dot, searchRel,
    List.insertionSort, List.orderedInsert, List.filter, cacheGet, List.find?,
    mostCommon1, counterKeys, counterKeysAux, bestKey, store_query_chatbot]

/-- Claim C3 (amended): in the two-tier versions (chat.py and
all-code.py) the claim holds — a lookup served by the fast path returns
the counter vote immediately, leaves index and cache unchanged, and
performs no Durable Store access: the result is the same whatever the
store would have returned, even a storage failure.  The chatbot.py
variant instead upserts the voted response into the store on every
index-served hit. -/
theorem c3_fastpath_no_store (qv : Vec) (idx : Index) (cache : Cache)
    (h1 : 0 < idx.length) (h2 : fastValid qv idx cache ≠ []) :
    ∀ storeRes storeRes' : Except String Store,
      get_cached_response (.ok qv) storeRes idx cache =
        .ok ((mostCommon1 (fastValid qv idx cache)).join, idx, cache) ∧
      get_cached_response (.ok qv) storeRes idx cache =
        get_cached_response (.ok qv) storeRes' idx cache := by
  intro s s'
  refine ⟨get_cached_fast qv s idx cache h1 h2, ?_⟩
  rw [get_cached_fast qv s idx cache h1 h2,
    get_cached_fast qv s' idx cache h1 h2]

/-- Claim C3 witness: a fast-path hit answered from the volatile
structures alone, even while the Durable Store is failing. -/
theorem c3_fastpath_no_store_witness :
    get_cached_response (.ok [1]) (.error "store unavailable")
        [[(9 : ℚ)/10]] [(0, "A")] =
      .ok (some "A", [[(9 : ℚ)/10]], [(0, "A")]) := by
  have hfv : fastValid [1] [[(9 : ℚ)/10]] [(0, "A")] = [some "A"] := by
    norm_num [fastValid, fastKept, search, withHandles, dot, searchRel,
      List.insertionSort, List.orderedInsert, List.filter, cacheGet,
      List.find?]
  have h := c3_fastpath_no_store [1] [[(9 : ℚ)/10]] [(0, "A")]
    (by decide) (by rw [hfv]; simp) (.error "store unavailable") (.ok [])
  rw [h.1, hfv]
  rfl

/-- Claim C4, counterexample.  The claim says a lookup error is never
converted into a cache-miss result.  In the all-code.py version the
handler is `except Exception: st.error(...); return None`: an embedding
provider failure yields exactly the miss value `None` with unchanged
volatile state — indistinguishable from the genuine miss on the same
empty state. -/
theorem c4_counterexample :
    get_cached_response_allcode (.error "embedding provider down") (.ok [])
        [] [] = (none, [], []) ∧
    get_cached_response_allcode (.ok [1]) (.ok []) [] [] =
      (none, [], []) := by
  constructor
  · decide
  · decide

/-- Claim C4 (amended): in the chat.py version the claim holds — the
`try ... except Exception as e: raise e` wrapper propagates both an
embedding provider failure and a Durable Store failure (the latter can
only arise on the slow path, the only place the store is read) to the
caller, so a miss from that version does mean genuine absence.  The
all-code.py and chatbot.py variants instead report the exception to the
UI and return a miss. -/
theorem c4_error_propagation (qv : Vec) (idx : Index) (cache : Cache)
    (hmiss : ¬(0 < idx.length ∧ fastValid qv idx cache ≠ [])) :
    (∀ (e : String) (storeRes : Except String Store),
       get_cached_response (.error e) storeRes idx cache = .error e) ∧
    (∀ e : String,
       get_cached_response (.ok qv) (.error e) idx cache = .error e) := by
  constructor
  · intro e s
    rfl
  · intro e
    simp only [get_cached_response]
    rw [if_neg hmiss]

/-- Claim C4 witness: both failure kinds propagated at concrete inputs. -/
theorem c4_error_propagation_witness :
    get_cached_response (.error "embed fail") (.ok []) [] [] =
      .error "embed fail" ∧
    get_cached_response (.ok [1]) (.error "store fail") [] [] =
      .error "store fail" := by
  have h := c4_error_propagation [1] [] [] (by decide)
  exact ⟨h.1 "embed fail" (.ok []), h.2 "store fail"⟩

/-- Claim C5: a lookup that reaches the slow path scans the Durable Store
records in original insertion order (the store list is the
`ORDER BY id` sequence and `List.find?` takes the first hit in list
order), returns the response of the first record whose similarity
strictly exceeds `0.6`, and on acceptance appends that record embedding
to the Volatile Vector Index and binds the fresh handle to its response
in the Response Cache Map before returning. -/
theorem c5_slow_path_first_match (qv : Vec) (idx : Index) (cache : Cache)
    (store : Store) (r : QueryRecord)
    (hmiss : ¬(0 < idx.length ∧ fastValid qv idx cache ≠ []))
    (hfind : store.find? (hitLow qv) = some r) :
    get_cached_response (.ok qv) (.ok store) idx cache =
      .ok (some r.response, idx ++ [r.embedding],
        cacheSet cache idx.length r.response) := by
  rw [get_cached_slow qv idx cache store hmiss, scanStore_eq_find, hfind]

/-- Claim C5 witness: with an empty index, a three-record store where the
second and third records both exceed the threshold; the second (older)
one wins — first match, not best match — and is appended to the volatile
structures. -/
theorem c5_slow_path_first_match_witness :
    get_cached_response (.ok [1])
        (.ok [⟨"a", [(1 : ℚ)/2], "ra", 1⟩, ⟨"b", [(7 : ℚ)/10], "rb", 1⟩,
          ⟨"c", [(8 : ℚ)/10], "rc", 1⟩]) [] [] =
      .ok (some "rb", [[(7 : ℚ)/10]], [(0, "rb")]) := by
  have h := c5_slow_path_first_match [1] [] []
    [⟨"a", [(1 : ℚ)/2], "ra", 1⟩, ⟨"b", [(7 : ℚ)/10], "rb", 1⟩,
      ⟨"c", [(8 : ℚ)/10], "rc", 1⟩] ⟨"b", [(7 : ℚ)/10], "rb", 1⟩
    (by decide) (by norm_num [List.find?, hitLow, dot])
  exact h

/-- Claim C6: the fast-path comparison against `T_high = 0.75` is strict.
For every search result, membership in the kept candidate subset is
equivalent to similarity strictly above `3/4`; a similarity exactly equal
to `3/4` is excluded, and `3/4 + ε` is included for every `ε > 0`. -/
theorem c6_threshold_strict (qv : Vec) (idx : Index) (p : ℕ × ℚ)
    (hp : p ∈ search idx qv 5) :
    (p ∈ fastKept qv idx ↔ (3 : ℚ)/4 < p.2) ∧
    (p.2 = (3 : ℚ)/4 → p ∉ fastKept qv idx) ∧
    (∀ ε : ℚ, 0 < ε → p.2 = (3 : ℚ)/4 + ε → p ∈ fastKept qv idx) := by
  have hiff : p ∈ fastKept qv idx ↔ (3 : ℚ)/4 < p.2 := by
    simp [fastKept, List.mem_filter, hp]
  refine ⟨hiff, ?_, ?_⟩
  · intro he hmem
    have hlt := hiff.mp hmem
    rw [he] at hlt
    exact lt_irrefl _ hlt
  · intro ε hε he
    apply hiff.mpr
    rw [he]
    linarith

/-- Claim C6 witness: an index holding a vector at similarity exactly
`3/4` (excluded) and one at `3/4 + 1/20 = 4/5` (included). -/
theorem c6_threshold_strict_witness :
    ((0, (3 : ℚ)/4) ∉ fastKept [1] [[(3 : ℚ)/4], [(4 : ℚ)/5]]) ∧
    ((1, (4 : ℚ)/5) ∈ fastKept [1] [[(3 : ℚ)/4], [(4 : ℚ)/5]]) := by
  have hs : search [[(3 : ℚ)/4], [(4 : ℚ)/5]] [1] 5 =
      [(1, (4 : ℚ)/5), (0, (3 : ℚ)/4)] := by
    norm_num [search, withHandles, dot, searchRel, List.insertionSort,
      List.orderedInsert]
  constructor
  · exact (c6_threshold_strict [1] [[(3 : ℚ)/4], [(4 : ℚ)/5]] (0, (3 : ℚ)/4)
      (by rw [hs]; simp)).2.1 rfl
  · exact (c6_threshold_strict [1] [[(3 : ℚ)/4], [(4 : ℚ)/5]] (1, (4 : ℚ)/5)
      (by rw [hs]; simp)).2.2 ((1 : ℚ)/20) (by norm_num) (by norm_num)

/-- Claim C7: when the fast path keeps candidates above `T_high`, the
lookup resolves each kept handle through the Response Cache Map (that is
what `fastValid` does) and returns the most frequent response among the
resolutions: the returned value occurs in the resolved list and its
multiplicity is maximal. -/
theorem c7_majority_vote (qv : Vec) (storeRes : Except String Store)
    (idx : Index) (cache : Cache) (h1 : 0 < idx.length)
    (h2 : fastValid qv idx cache ≠ []) :
    ∃ e : Option String,
      mostCommon1 (fastValid qv idx cache) = some e ∧
      get_cached_response (.ok qv) storeRes idx cache = .ok (e, idx, cache) ∧
      e ∈ fastValid qv idx cache ∧
      ∀ r ∈ fastValid qv idx cache,
        countOf (fastValid qv idx cache) r ≤
          countOf (fastValid qv idx cache) e := by
  obtain ⟨e, he, hmem, hmax, -⟩ := mostCommon1_spec (fastValid qv idx cache) h2
  refine ⟨e, he, ?_, hmem, hmax⟩
  rw [get_cached_fast qv storeRes idx cache h1 h2, he]
  rfl

/-- Claim C7 witness: three qualifying candidates resolving to responses
A, A, B; the lookup returns A. -/
theorem c7_majority_vote_witness :
    get_cached_response (.ok [1]) (.ok [])
        [[(9 : ℚ)/10], [(8 : ℚ)/10], [(79 : ℚ)/100]]
        [(0, "A"), (1, "A"), (2, "B")] =
      .ok (some "A", [[(9 : ℚ)/10], [(8 : ℚ)/10], [(79 : ℚ)/100]],
        [(0, "A"), (1, "A"), (2, "B")]) := by
  have hk : fastKept [1] [[(9 : ℚ)/10], [(8 : ℚ)/10], [(79 : ℚ)/100]] =
      [(0, (9 : ℚ)/10), (1, (8 : ℚ)/10), (2, (79 : ℚ)/100)] := by
    norm_num [fastKept, search, withHandles, dot, searchRel,
      List.insertionSort, List.orderedInsert, List.filter]
  have hfv : fastValid [1] [[(9 : ℚ)/10], [(8 : ℚ)/10], [(79 : ℚ)/100]]
      [(0, "A"), (1, "A"), (2, "B")] = [some "A", some "A", some "B"] := by
    rw [fastValid, hk]
    decide
  obtain ⟨e, he, hres, -, -⟩ := c7_majority_vote [1] (.ok [])
    [[(9 : ℚ)/10], [(8 : ℚ)/10], [(79 : ℚ)/100]]
    [(0, "A"), (1, "A"), (2, "B")] (by decide) (by rw [hfv]; simp)
  have hA : e = some "A" := by
    rw [hfv] at he
    have : mostCommon1 [some "A", some "A", some "B"] =
        some (some "A") := by decide
    rw [this] at he
    exact (Option.some.inj he).symm
  rw [hA] at hres
  exact hres

/-- Claim C8: the Volatile Vector Index and the Response Cache Map grow
only in lockstep.  The `lockstep` predicate states that the map binds
exactly the handles `0 .. size - 1`; it holds after the startup rebuild,
and is preserved by every lookup (`get_cached_response`, on all of its
paths) and by every record operation (`store_query`). -/
theorem c8_lockstep_invariant (store : Store)
    (embedRes : Except String Vec) (storeRes : Except String Store)
    (q : String) (emb : Vec) (resp : String)
    (idx : Index) (cache : Cache) (hl : lockstep idx cache) :
    lockstep (rebuild_index_and_cache store).1
      (rebuild_index_and_cache store).2 ∧
    (∀ (res : Option String) (idx' : Index) (cache' : Cache),
       get_cached_response embedRes storeRes idx cache =
         .ok (res, idx', cache') → lockstep idx' cache') ∧
    lockstep (store_query q emb resp store idx cache).2.1
      (store_query q emb resp store idx cache).2.2 := by
  refine ⟨?_, ?_, store_query_lockstep q emb resp store idx cache hl⟩
  · exact rebuildAux_lockstep store ([], []) 0 rfl rfl
  · intro res idx' cache' heq
    match embedRes with
    | .error e => exact absurd heq (by simp [get_cached_response])
    | .ok qv =>
      by_cases hfast : 0 < idx.length ∧ fastValid qv idx cache ≠ []
      · rw [get_cached_fast qv storeRes idx cache hfast.1 hfast.2] at heq
        injection heq with heq'
        injection heq' with h1 heq''
        injection heq'' with h2 h3
        rw [← h2, ← h3]
        exact hl
      · match storeRes with
        | .error e => exact absurd heq (by simp [get_cached_response, hfast])
        | .ok store' =>
          rw [get_cached_slow qv idx cache store' hfast] at heq
          injection heq with heq'
          have hs := scanStore_lockstep qv idx cache hl store'
          rw [heq'] at hs
          exact hs

/-- Claim C8 witness: the invariant after a rebuild, after a fast-path
lookup, and after a record operation, at concrete states. -/
theorem c8_lockstep_invariant_witness :
    lockstep (rebuild_index_and_cache [⟨"a", [1], "ra", 1⟩]).1
      (rebuild_index_and_cache [⟨"a", [1], "ra", 1⟩]).2 ∧
    lockstep [[(1 : ℚ)]] [(0, "r")] ∧
    lockstep (store_query "b" [2] "rb" [⟨"a", [1], "ra", 1⟩]
        [[(1 : ℚ)]] [(0, "r")]).2.1
      (store_query "b" [2] "rb" [⟨"a", [1], "ra", 1⟩]
        [[(1 : ℚ)]] [(0, "r")]).2.2 := by
  have h := c8_lockstep_invariant [⟨"a", [1], "ra", 1⟩] (.ok [1]) (.ok [])
    "b" [2] "rb" [[(1 : ℚ)]] [(0, "r")] rfl
  have hk : fastKept [1] [[(1 : ℚ)]] = [(0, (1 : ℚ))] := by
    norm_num [fastKept, search, withHandles, dot, searchRel,
      List.insertionSort, List.orderedInsert, List.filter]
  have hfv : fastValid [1] [[(1 : ℚ)]] [(0, "r")] = [some "r"] := by
    rw [fastValid, hk]
    decide
  have hlook : get_cached_response (.ok [1]) (.ok []) [[(1 : ℚ)]]
      [(0, "r")] = .ok (some "r", [[(1 : ℚ)]], [(0, "r")]) := by
    rw [get_cached_fast [1] (.ok []) [[(1 : ℚ)]] [(0, "r")] (by decide)
      (by rw [hfv]; simp), hfv]
    rfl
  exact ⟨h.1, h.2.1 (some "r") [[(1 : ℚ)]] [(0, "r")] hlook, h.2.2⟩

/-- Claim C9: a fast-path vote is deterministic, the candidates are
processed in descending-similarity order (the search result is sorted by
`searchRel`), and on a tie the counter preserves first-insertion order:
the returned key `e` is placed in the first-encounter key list after only
keys of strictly smaller count, so every key tied with `e` is first
encountered later than `e` — i.e. the winner is the tied response coming
from the highest-similarity qualifying handles. -/
theorem c9_tie_break (qv : Vec) (storeRes : Except String Store)
    (idx : Index) (cache : Cache) (h1 : 0 < idx.length)
    (h2 : fastValid qv idx cache ≠ []) :
    (search idx qv 5).Sorted searchRel ∧
    ∃ (e : Option String) (K1 K2 : List (Option String)),
      mostCommon1 (fastValid qv idx cache) = some e ∧
      get_cached_response (.ok qv) storeRes idx cache = .ok (e, idx, cache) ∧
      (∀ r ∈ fastValid qv idx cache,
        countOf (fastValid qv idx cache) r ≤
          countOf (fastValid qv idx cache) e) ∧
      counterKeys (fastValid qv idx cache) = K1 ++ e :: K2 ∧
      ∀ r ∈ K1, countOf (fastValid qv idx cache) r <
        countOf (fastValid qv idx cache) e := by
  constructor
  · unfold search
    exact List.Pairwise.sublist (List.take_sublist _ _)
      (List.sorted_insertionSort searchRel _)
  · obtain ⟨e, he, -, hmax, K1, K2, hdec, hlt⟩ :=
      mostCommon1_spec (fastValid qv idx cache) h2
    refine ⟨e, K1, K2, he, ?_, hmax, hdec, hlt⟩
    rw [get_cached_fast qv storeRes idx cache h1 h2, he]
    rfl

/-- Claim C9 witness: two qualifying candidates with distinct responses,
one vote each — a tie; the lookup returns the response of the
higher-similarity handle. -/
theorem c9_tie_break_witness :
    get_cached_response (.ok [1]) (.ok []) [[(9 : ℚ)/10], [(8 : ℚ)/10]]
        [(0, "A"), (1, "B")] =
      .ok (some "A", [[(9 : ℚ)/10], [(8 : ℚ)/10]], [(0, "A"), (1, "B")]) := by
  have hk : fastKept [1] [[(9 : ℚ)/10], [(8 : ℚ)/10]] =
      [(0, (9 : ℚ)/10), (1, (8 : ℚ)/10)] := by
    norm_num [fastKept, search, withHandles, dot, searchRel,
      List.insertionSort, List.orderedInsert, List.filter]
  have hfv : fastValid [1] [[(9 : ℚ)/10], [(8 : ℚ)/10]] [(0, "A"), (1, "B")] =
      [some "A", some "B"] := by
    rw [fastValid, hk]
    decide
  obtain ⟨-, e, K1, K2, he, hres, -, -, -⟩ := c9_tie_break [1] (.ok [])
    [[(9 : ℚ)/10], [(8 : ℚ)/10]] [(0, "A"), (1, "B")] (by decide)
    (by rw [hfv]; simp)
  have hA : e = some "A" := by
    rw [hfv] at he
    have hco : mostCommon1 [some "A", some "B"] = some (some "A") := by decide
    rw [hco] at he
    exact (Option.some.inj he).symm
  rw [hA] at hres
  exact hres

/-- Claim C10: a record/store_query call whose query text already exists
in the Durable Store still appends a volatile entry, because the upsert
reports a change on conflict-update as well: the store keeps the same
number of records (the matching row is updated in place), yet the index
gains one more vector — so the index can hold strictly more entries than
the store has records — the fresh handle is bound to the new response,
and every pre-existing handle keeps its old response unchanged. -/
theorem c10_duplicate_volatile_entry (q : String) (emb : Vec)
    (resp : String) (s1 s2 : Store) (r0 : QueryRecord)
    (idx : Index) (cache : Cache) (hq : r0.query = q)
    (hothers : ∀ r ∈ s1 ++ s2, r.query ≠ q) (hl : lockstep idx cache) :
    (insert_or_update_query q emb resp (s1 ++ r0 :: s2)).1 = true ∧
    (store_query q emb resp (s1 ++ r0 :: s2) idx cache).2.1 =
      idx ++ [emb] ∧
    (store_query q emb resp (s1 ++ r0 :: s2) idx cache).1.length =
      (s1 ++ r0 :: s2).length ∧
    cacheGet (store_query q emb resp (s1 ++ r0 :: s2) idx cache).2.2
      idx.length = some resp ∧
    (∀ n < idx.length,
      cacheGet (store_query q emb resp (s1 ++ r0 :: s2) idx cache).2.2 n =
        cacheGet cache n) ∧
    (store_query q emb resp (s1 ++ r0 :: s2) idx cache).2.1.length =
      idx.length + 1 := by
  have hf : ∀ p ∈ cache, p.1 ≠ idx.length :=
    fun p hp => Nat.ne_of_lt (lockstep_keys_lt idx cache hl p hp)
  have hset : cacheSet cache idx.length resp =
      cache ++ [(idx.length, resp)] :=
    cacheSet_fresh cache idx.length resp hf
  refine ⟨iou_fst q emb resp _, ?_, ?_, ?_, ?_, ?_⟩
  · rw [store_query_eq]
  · rw [store_query_eq, iou_present q emb resp s1 s2 r0 hq hothers]
    simp
  · rw [store_query_eq, hset]
    exact cacheGet_append_new cache idx.length resp hf
  · intro n hn
    rw [store_query_eq, hset]
    apply cacheGet_append_old
    have hmem : n ∈ cache.map Prod.fst := by
      rw [hl]
      exact List.mem_range.mpr hn
    obtain ⟨p, hp, hpn⟩ := List.mem_map.mp hmem
    exact ⟨p, hp, hpn⟩
  · rw [store_query_eq]
    simp

/-- Claim C10 witness: recording a duplicate query text on a one-record
store and a one-entry index — the upsert reports true, the index grows to
two vectors while the store stays at one record, and handle 0 keeps its
old response. -/
theorem c10_duplicate_volatile_entry_witness :
    (insert_or_update_query "a" [2] "rnew" [⟨"a", [1], "ra", 1⟩]).1 =
      true ∧
    (store_query "a" [2] "rnew" [⟨"a", [1], "ra", 1⟩] [[1]]
      [(0, "ra")]).2.1 = [[1], [2]] ∧
    (store_query "a" [2] "rnew" [⟨"a", [1], "ra", 1⟩] [[1]]
      [(0, "ra")]).1.length = 1 ∧
    cacheGet (store_query "a" [2] "rnew" [⟨"a", [1], "ra", 1⟩] [[1]]
      [(0, "ra")]).2.2 1 = some "rnew" ∧
    cacheGet (store_query "a" [2] "rnew" [⟨"a", [1], "ra", 1⟩] [[1]]
      [(0, "ra")]).2.2 0 = some "ra" := by
  have h := c10_duplicate_volatile_entry "a" [2] "rnew" [] []
    ⟨"a", [1], "ra", 1⟩ [[1]] [(0, "ra")] rfl (by simp) rfl
  refine ⟨h.1, ?_, ?_, ?_, ?_⟩
  · exact h.2.1
  · exact h.2.2.1
  · exact h.2.2.2.1
  · exact (h.2.2.2.2.1 0 (by decide)).trans (by decide)

end ChatbotLama
